import Mathlib

/-
Verification of the Tcl debugger core (variable tracking, type classification,
breakpoint evaluation) against its specification.

The development shallowly embeds the two C++ translation units:
  * namespace TclDebugger    -- src/tcl_debugger.cpp
  * namespace TclIntegrated  -- src/tcl_integrated_debugger.cpp (divergent classifier)

Modelling conventions:
  * std::string is String; C++ int is Int (counters that only grow are Nat).
  * std::map<K,V> is an association list `List (K × V)` with key-unique
    insert/replace (`alInsert`), first-match lookup (`alLookup`) and
    find-and-mutate (`alModify`).  Iteration order of std::map (sorted by key)
    is not reproduced; no modelled behaviour depends on it beyond the
    single-entry registries used below.
  * The scope stack `std::vector<map>` is a list whose HEAD is the innermost
    frame (the vector's back()).
  * The variable-change callback (std::function member) is modelled by
    `addVariable` returning the ChangeEvent it would pass to the callback;
    the callback is invoked exactly once per addVariable call in the source.
  * Cosmetic state is dropped: random simulated addresses, hex dumps,
    estimatedSize, refCount, terminal output (the spec declares these
    out of scope / non-semantic).
  * std::stod's success/failure is modelled by `stodSucceeds`: strtod performs
    a conversion iff, after optional whitespace and sign, the text starts with
    a digit, a dot followed by a digit, or a case-insensitive inf/nan form
    (out-of-range overflow, which also throws, is not modelled; no claim
    involves it).
-/

/-- Whitespace as classified by the C locale's isspace, used both by strtod's
leading-whitespace skip and by `operator>>` extraction. -/
def isCSpace (c : Char) : Bool :=
  c.toNat = 32 || c.toNat = 9 || c.toNat = 10 || c.toNat = 11 || c.toNat = 12 || c.toNat = 13

/-- Success predicate of std::stod (strtod "conversion performed"): after
skipping isspace characters and an optional sign, the remaining text must start
with a decimal digit, a dot followed by a digit, or inf/nan (case-insensitive).
A hex form 0x... begins with the digit 0, so it is covered by the digit case. -/
def stodSucceeds (s : String) : Bool :=
  let cs := s.toList.dropWhile isCSpace
  let cs := match cs with
    | c :: rest => if c = '+' || c = '-' then rest else c :: rest
    | [] => []
  match cs with
  | [] => false
  | c :: rest =>
    c.isDigit
    || (c = '.' && (match rest with | d :: _ => d.isDigit | [] => false))
    || (match (c :: rest).map Char.toLower with
        | 'i' :: 'n' :: 'f' :: _ => true
        | 'n' :: 'a' :: 'n' :: _ => true
        | _ => false)

/-- Repeated `iss >> element` extraction: split on isspace runs, dropping empty
tokens.  The accumulator holds the current token reversed. -/
def splitWsAux : List Char → List Char → List String
  | [], acc => if acc.isEmpty then [] else [String.mk acc.reverse]
  | c :: cs, acc =>
    if isCSpace c then
      if acc.isEmpty then splitWsAux cs []
      else String.mk acc.reverse :: splitWsAux cs []
    else splitWsAux cs (c :: acc)

/-- All whitespace-separated tokens of a string (what a loop of `iss >> element`
with no cap collects). -/
def wsTokenize (s : String) : List String := splitWsAux s.toList []

/-- Strip one enclosing brace pair: the `if (val.front() == '{' && val.back() == '}')
then substr(1, len-2)` pattern shared by the classifier helpers. -/
def stripBracesList : List Char → List Char
  | [] => []
  | c :: rest =>
    if c = '{' ∧ (c :: rest).getLast? = some '}' then rest.dropLast else c :: rest

/-- Lookup in an association list modelling std::map::find. -/
def alLookup {κ β : Type} [DecidableEq κ] : List (κ × β) → κ → Option β
  | [], _ => none
  | (k, v) :: rest, key => if k = key then some v else alLookup rest key

/-- Insert-or-replace modelling `map[key] = value`. -/
def alInsert {κ β : Type} [DecidableEq κ] : List (κ × β) → κ → β → List (κ × β)
  | [], key, val => [(key, val)]
  | (k, v) :: rest, key, val =>
    if k = key then (key, val) :: rest else (k, v) :: alInsert rest key val

/-- Find-and-mutate modelling `it = map.find(key); if (it != end) mutate(it->second)`. -/
def alModify {κ β : Type} [DecidableEq κ] : List (κ × β) → κ → (β → β) → List (κ × β)
  | [], _, _ => []
  | (k, v) :: rest, key, f =>
    if k = key then (k, f v) :: rest else (k, v) :: alModify rest key f

/-- Consecutive key-value pairing of a token list: the
`for (i = 0; i + 1 < size; i += 2) dict[e[i]] = e[i+1]` loop body order
(an odd trailing token is ignored). -/
def dictPairsOf : List String → List (String × String)
  | k :: v :: rest => (k, v) :: dictPairsOf rest
  | _ => []

/-- Enhanced variable information (struct EnhancedVariableInfo, identical in
both translation units).  Cosmetic members (simulatedAddress, estimatedSize,
refCount, simulatedMemory, hexDump, arrayElements which is never populated)
are dropped per the spec's scope. -/
structure EnhancedVariableInfo where
  name : String
  value : String
  previousValue : String
  type : String
  scope : String
  lastModifiedLine : Int
  accessCount : Nat
  isArray : Bool
  isList : Bool
  isDictionary : Bool
  isNumeric : Bool
  isEmpty : Bool
  listElements : List String
  dictElements : List (String × String)
  valueHistory : List String
deriving DecidableEq

/-- Change event carried to the variableChangeCallback: (name, oldValue, newValue). -/
structure ChangeEvent where
  name : String
  oldValue : String
  newValue : String
deriving DecidableEq

namespace TclDebugger

/-- EnhancedVariableInfo::isNumericValue: empty fails, otherwise std::stod
must not throw. -/
def isNumericValue (val : String) : Bool :=
  if val = "" then false else stodSucceeds val

/-- EnhancedVariableInfo::isDictionaryValue (tcl_debugger.cpp): strip one brace
pair, read tokens while fewer than 20 are collected, then require an even
count between 2 and 20.  The read loop caps the collected count at 20, so any
input with more than 20 tokens yields exactly 20 collected tokens. -/
def isDictionaryValue (val : String) : Bool :=
  if val = "" then false
  else
    let n := min (splitWsAux (stripBracesList val.toList) []).length 20
    decide (n % 2 = 0 ∧ 2 ≤ n ∧ n ≤ 20)

/-- EnhancedVariableInfo::isListValue (tcl_debugger.cpp): strip one brace pair,
count tokens with a cap of 10, and require more than one token and not a
dictionary (the dictionary test runs on the original value). -/
def isListValue (val : String) : Bool :=
  if val = "" then false
  else
    let elementCount := min (splitWsAux (stripBracesList val.toList) []).length 10
    decide (1 < elementCount) && !(isDictionaryValue val)

/-- EnhancedVariableInfo::parseList: tokens of the brace-stripped value. -/
def parseList (value : String) : List String :=
  splitWsAux (stripBracesList value.toList) []

/-- EnhancedVariableInfo::parseDictionary: pair up the tokens of the
brace-stripped value and store them in the std::map (later duplicate keys
overwrite earlier ones). -/
def parseDictionary (value : String) : List (String × String) :=
  (dictPairsOf (splitWsAux (stripBracesList value.toList) [])).foldl
    (fun m kv => alInsert m kv.1 kv.2) []

/-- EnhancedVariableInfo::analyzeTypeAndStructure (tcl_debugger.cpp).  The
source first resets the four type flags and then takes the first matching
branch: empty, numeric (float iff a dot occurs in the literal), list,
dictionary, string; here the flag reset is inlined into each branch. -/
def analyzeTypeAndStructure (r : EnhancedVariableInfo) : EnhancedVariableInfo :=
  if r.isEmpty then
    { r with isArray := false, isList := false, isDictionary := false, isNumeric := false,
             type := "empty" }
  else if isNumericValue r.value then
    { r with isArray := false, isList := false, isDictionary := false, isNumeric := true,
             type := if r.value.toList.contains '.' then "float" else "integer" }
  else if isListValue r.value then
    { r with isArray := false, isList := true, isDictionary := false, isNumeric := false,
             type := "list", listElements := parseList r.value }
  else if isDictionaryValue r.value then
    { r with isArray := false, isList := false, isDictionary := true, isNumeric := false,
             type := "dictionary", dictElements := parseDictionary r.value }
  else
    { r with isArray := false, isList := false, isDictionary := false, isNumeric := false,
             type := "string" }

/-- The three-argument EnhancedVariableInfo constructor: initialises the
fields (accessCount starts at 0, history empty) and immediately runs
analyzeTypeAndStructure.  generateMemorySimulation only fills cosmetic
members and is dropped. -/
def mkEnhancedVariableInfo (n v s : String) : EnhancedVariableInfo :=
  analyzeTypeAndStructure
    { name := n, value := v, previousValue := "", type := "", scope := s,
      lastModifiedLine := 0, accessCount := 0,
      isArray := false, isList := false, isDictionary := false, isNumeric := false,
      isEmpty := (v = ""),
      listElements := [], dictElements := [], valueHistory := [] }

/-- History push of EnhancedVariableInfo::updateValue: push_back the current
value, then erase the front if the size exceeds 10. -/
def pushHistory (h : List String) (v : String) : List String :=
  let h2 := h ++ [v]
  if 10 < h2.length then h2.tail else h2

/-- EnhancedVariableInfo::updateValue: record the old value into the bounded
history when history is already non-empty or the value actually changes, shift
value into previousValue, bump accessCount, and re-run the classifier. -/
def updateValue (r : EnhancedVariableInfo) (newValue : String) (line : Int) :
    EnhancedVariableInfo :=
  let hist :=
    if !r.valueHistory.isEmpty || r.value != newValue then
      pushHistory r.valueHistory r.value
    else r.valueHistory
  analyzeTypeAndStructure
    { r with previousValue := r.value, value := newValue, lastModifiedLine := line,
             accessCount := r.accessCount + 1, isEmpty := (newValue = ""),
             valueHistory := hist }

/-- The pure value-to-tag projection of analyzeTypeAndStructure, used to state
the type-freshness invariant: the tag the classifier assigns to a raw value. -/
def typeOf (v : String) : String :=
  if v = "" then "empty"
  else if isNumericValue v then
    (if v.toList.contains '.' then "float" else "integer")
  else if isListValue v then "list"
  else if isDictionaryValue v then "dictionary"
  else "string"

/-- Enhanced breakpoint (struct EnhancedBreakpoint).  The random
simulatedAddress is cosmetic and dropped. -/
structure EnhancedBreakpoint where
  line : Int
  filename : String
  condition : String
  enabled : Bool
  hitCount : Nat
  watchVariable : String
  memoryCondition : String
deriving DecidableEq

/-- The EnhancedBreakpoint(line, file, cond) constructor: enabled, zero hits,
no watch variable or memory condition. -/
def mkEnhancedBreakpoint (l : Int) (file cond : String) : EnhancedBreakpoint :=
  { line := l, filename := file, condition := cond, enabled := true, hitCount := 0,
    watchVariable := "", memoryCondition := "" }

/-- class EnhancedBreakpointManager: one std::map keyed by line holds both
line breakpoints and variable-watch breakpoints. -/
structure EnhancedBreakpointManager where
  breakpoints : List (Int × EnhancedBreakpoint)
  watchedVariables : List String
deriving DecidableEq

/-- EnhancedBreakpointManager::addBreakpoint: `breakpoints[line] = EnhancedBreakpoint(...)`,
replacing any breakpoint already keyed by that line. -/
def addBreakpoint (m : EnhancedBreakpointManager) (line : Int) (filename cond : String) :
    EnhancedBreakpointManager :=
  { m with breakpoints := alInsert m.breakpoints line (mkEnhancedBreakpoint line filename cond) }

/-- EnhancedBreakpointManager::addVariableWatchBreakpoint: builds a breakpoint
with watchVariable and memoryCondition set and stores it KEYED BY LINE
(`breakpoints[line] = bp`), replacing any breakpoint already at that line. -/
def addVariableWatchBreakpoint (m : EnhancedBreakpointManager) (line : Int)
    (varName cond : String) : EnhancedBreakpointManager :=
  let bp := { mkEnhancedBreakpoint line "" cond with
                watchVariable := varName, memoryCondition := cond }
  { m with breakpoints := alInsert m.breakpoints line bp }

/-- EnhancedBreakpointManager::hasBreakpoint: an enabled breakpoint exists at
the line.  The source reads the map and returns; it mutates nothing (in
particular it does not touch hitCount). -/
def hasBreakpoint (m : EnhancedBreakpointManager) (line : Int) : Bool :=
  match alLookup m.breakpoints line with
  | some bp => bp.enabled
  | none => false

/-- EnhancedBreakpointManager::hitBreakpoint: find the line's breakpoint and
increment its hitCount.  No caller in either translation unit ever invokes
this function. -/
def hitBreakpoint (m : EnhancedBreakpointManager) (line : Int) : EnhancedBreakpointManager :=
  { m with breakpoints :=
      alModify m.breakpoints line (fun bp => { bp with hitCount := bp.hitCount + 1 }) }

/-- Substring after the first '=' of a condition string:
`cond.substr(cond.find('=') + 1)`. -/
def condExpected (cond : String) : String :=
  String.mk ((cond.toList.dropWhile (fun c => !(c == '='))).drop 1)

/-- Loop body of EnhancedBreakpointManager::checkVariableWatchBreakpoint over
the breakpoint map: every enabled breakpoint watching the variable gets its
hitCount incremented; the loop returns true at the FIRST breakpoint whose
condition is satisfied (entries after it are left untouched), where the
condition is: "changed" fires iff old differs from new, a condition containing
an '=' fires iff the new value equals the text after the first '=', and an
empty condition fires iff old differs from new. -/
def checkWatchLoop (bps : List (Int × EnhancedBreakpoint)) (varName oldValue newValue : String) :
    List (Int × EnhancedBreakpoint) × Bool :=
  match bps with
  | [] => ([], false)
  | (l, bp) :: rest =>
    if bp.enabled && bp.watchVariable == varName then
      let bp2 := { bp with hitCount := bp.hitCount + 1 }
      if bp2.memoryCondition != "" then
        if bp2.memoryCondition == "changed" && oldValue != newValue then
          ((l, bp2) :: rest, true)
        else if bp2.memoryCondition.toList.contains '=' &&
                newValue == condExpected bp2.memoryCondition then
          ((l, bp2) :: rest, true)
        else
          let r := checkWatchLoop rest varName oldValue newValue
          ((l, bp2) :: r.1, r.2)
      else
        if oldValue != newValue then ((l, bp2) :: rest, true)
        else
          let r := checkWatchLoop rest varName oldValue newValue
          ((l, bp2) :: r.1, r.2)
    else
      let r := checkWatchLoop rest varName oldValue newValue
      ((l, bp) :: r.1, r.2)

/-- EnhancedBreakpointManager::checkVariableWatchBreakpoint: run the watch
loop over the registry, returning the mutated registry and whether a watch
fired. -/
def checkVariableWatchBreakpoint (m : EnhancedBreakpointManager)
    (varName oldValue newValue : String) : EnhancedBreakpointManager × Bool :=
  let r := checkWatchLoop m.breakpoints varName oldValue newValue
  ({ m with breakpoints := r.1 }, r.2)

/-- class MemoryAwareVariableTracker: the global variable map plus the stack
of local-scope maps.  The list head is the innermost frame (the C++ vector's
back()).  watchedVariables, realTimeMonitoring and the callback member only
drive terminal output / are modelled by the returned ChangeEvent. -/
structure MemoryAwareVariableTracker where
  globalVariables : List (String × EnhancedVariableInfo)
  scopeStack : List (List (String × EnhancedVariableInfo))
deriving DecidableEq

/-- MemoryAwareVariableTracker::getVariableInfo: check the top-of-stack frame
first, then fall back to the global map. -/
def getVariableInfo (t : MemoryAwareVariableTracker) (name : String) :
    Option EnhancedVariableInfo :=
  match t.scopeStack with
  | top :: _ =>
    match alLookup top name with
    | some v => some v
    | none => alLookup t.globalVariables name
  | [] => alLookup t.globalVariables name

/-- MemoryAwareVariableTracker::addVariable.  If the name resolves (local over
global), the found record is updated IN PLACE where it lives; otherwise a new
record is created and stored in the global map when scope is "global", in the
innermost frame when the stack is non-empty, and NOWHERE otherwise.  The
returned ChangeEvent models the single variableChangeCallback invocation
(name, old value or "" on creation, new value) that ends the function. -/
def addVariable (t : MemoryAwareVariableTracker) (name value scope : String) (line : Int) :
    MemoryAwareVariableTracker × ChangeEvent :=
  match getVariableInfo t name with
  | some existingVar =>
    let updated := updateValue existingVar value line
    let t2 :=
      match t.scopeStack with
      | top :: rest =>
        if (alLookup top name).isSome then
          { t with scopeStack := alInsert top name updated :: rest }
        else
          { t with globalVariables := alInsert t.globalVariables name updated }
      | [] => { t with globalVariables := alInsert t.globalVariables name updated }
    (t2, { name := name, oldValue := existingVar.value, newValue := value })
  | none =>
    let var := { mkEnhancedVariableInfo name value scope with lastModifiedLine := line }
    let t2 :=
      if scope = "global" then
        { t with globalVariables := alInsert t.globalVariables name var }
      else
        match t.scopeStack with
        | top :: rest => { t with scopeStack := alInsert top name var :: rest }
        | [] => t
    (t2, { name := name, oldValue := "", newValue := value })

/-- MemoryAwareVariableTracker::pushScope: push an empty frame. -/
def pushScope (t : MemoryAwareVariableTracker) : MemoryAwareVariableTracker :=
  { t with scopeStack := [] :: t.scopeStack }

/-- MemoryAwareVariableTracker::popScope: pop the innermost frame; a no-op on
an empty stack. -/
def popScope (t : MemoryAwareVariableTracker) : MemoryAwareVariableTracker :=
  match t.scopeStack with
  | [] => t
  | _ :: rest => { t with scopeStack := rest }

/-- Every record stored anywhere in the tracker (global map and all frames). -/
def allRecords (t : MemoryAwareVariableTracker) : List EnhancedVariableInfo :=
  t.globalVariables.map Prod.snd ++ (t.scopeStack.map (fun f => f.map Prod.snd)).flatten

/-- Boolean form of the type-freshness invariant: every stored record's type
tag is the classifier's tag for its current value. -/
def typeFresh (t : MemoryAwareVariableTracker) : Bool :=
  (allRecords t).all (fun r => r.type == typeOf r.value)

/-- Tracker states reachable from a fresh tracker through its public
mutating operations. -/
inductive Reachable : MemoryAwareVariableTracker → Prop where
  | init : Reachable { globalVariables := [], scopeStack := [] }
  | add (n v s : String) (l : Int) {t : MemoryAwareVariableTracker} :
      Reachable t → Reachable (addVariable t n v s l).1
  | push {t : MemoryAwareVariableTracker} : Reachable t → Reachable (pushScope t)
  | pop {t : MemoryAwareVariableTracker} : Reachable t → Reachable (popScope t)

end TclDebugger

/-- DebugConsole::setVariableBreakpoint (tcl_debugger.cpp): the console's
breakvar command always registers the watch at line 0 with no condition. -/
def DebugConsole.setVariableBreakpoint (m : TclDebugger.EnhancedBreakpointManager)
    (varname : String) : TclDebugger.EnhancedBreakpointManager :=
  TclDebugger.addVariableWatchBreakpoint m 0 varname ""

namespace TclIntegrated

/-- EnhancedVariableInfo::isNumericValue (tcl_integrated_debugger.cpp),
identical to the other translation unit's. -/
def isNumericValue (val : String) : Bool :=
  if val = "" then false else stodSucceeds val

/-- EnhancedVariableInfo::isDictionaryValue (tcl_integrated_debugger.cpp):
like the other unit's but the token-reading loop has NO cap, so the parity
test sees the true token count. -/
def isDictionaryValue (val : String) : Bool :=
  if val = "" then false
  else
    let n := (splitWsAux (stripBracesList val.toList) []).length
    decide (n % 2 = 0 ∧ 2 ≤ n ∧ n ≤ 20)

/-- EnhancedVariableInfo::isListValue (tcl_integrated_debugger.cpp): a value
enclosed in braces, or containing a space character, that is not a
dictionary. -/
def isListValue (val : String) : Bool :=
  if val = "" then false
  else if (val.toList.head? = some '{' ∧ val.toList.getLast? = some '}')
          ∨ val.toList.contains ' ' then
    !isDictionaryValue val
  else false

/-- EnhancedVariableInfo::parseList (tcl_integrated_debugger.cpp), identical
to the other unit's. -/
def parseList (value : String) : List String :=
  splitWsAux (stripBracesList value.toList) []

/-- EnhancedVariableInfo::parseDictionary (tcl_integrated_debugger.cpp),
identical to the other unit's. -/
def parseDictionary (value : String) : List (String × String) :=
  (dictPairsOf (splitWsAux (stripBracesList value.toList) [])).foldl
    (fun m kv => alInsert m kv.1 kv.2) []

/-- EnhancedVariableInfo::analyzeTypeAndStructure (tcl_integrated_debugger.cpp):
same shape as the other unit's, but checks DICTIONARY BEFORE LIST. -/
def analyzeTypeAndStructure (r : EnhancedVariableInfo) : EnhancedVariableInfo :=
  if r.isEmpty then
    { r with isArray := false, isList := false, isDictionary := false, isNumeric := false,
             type := "empty" }
  else if isNumericValue r.value then
    { r with isArray := false, isList := false, isDictionary := false, isNumeric := true,
             type := if r.value.toList.contains '.' then "float" else "integer" }
  else if isDictionaryValue r.value then
    { r with isArray := false, isList := false, isDictionary := true, isNumeric := false,
             type := "dictionary", dictElements := parseDictionary r.value }
  else if isListValue r.value then
    { r with isArray := false, isList := true, isDictionary := false, isNumeric := false,
             type := "list", listElements := parseList r.value }
  else
    { r with isArray := false, isList := false, isDictionary := false, isNumeric := false,
             type := "string" }

/-- The three-argument EnhancedVariableInfo constructor of
tcl_integrated_debugger.cpp (same code as the other unit's, dispatching to
this unit's classifier). -/
def mkEnhancedVariableInfo (n v s : String) : EnhancedVariableInfo :=
  analyzeTypeAndStructure
    { name := n, value := v, previousValue := "", type := "", scope := s,
      lastModifiedLine := 0, accessCount := 0,
      isArray := false, isList := false, isDictionary := false, isNumeric := false,
      isEmpty := (v = ""),
      listElements := [], dictElements := [], valueHistory := [] }

end TclIntegrated

/-- Suffix of the last n elements, used to state the bounded-history claim. -/
def takeRight {α : Type} (n : Nat) (l : List α) : List α := l.drop (l.length - n)

/-- The empty variable tracker (a freshly constructed MemoryAwareVariableTracker). -/
def emptyTracker : TclDebugger.MemoryAwareVariableTracker :=
  { globalVariables := [], scopeStack := [] }

/-- The empty breakpoint manager (a freshly constructed EnhancedBreakpointManager). -/
def emptyManager : TclDebugger.EnhancedBreakpointManager :=
  { breakpoints := [], watchedVariables := [] }

/-- Tracker state after: global x = "g"; pushScope; local x = "l". -/
def shadowTracker : TclDebugger.MemoryAwareVariableTracker :=
  (TclDebugger.addVariable
    (TclDebugger.pushScope (TclDebugger.addVariable emptyTracker "x" "g" "global" 1).1)
    "x" "l" "local" 2).1

/-- Manager state after setting a line breakpoint at line 20. -/
def lineTwentyManager : TclDebugger.EnhancedBreakpointManager :=
  TclDebugger.addBreakpoint emptyManager 20 "" ""

/-- Manager state after the console commands breakvar a; breakvar b. -/
def twoWatchManager : TclDebugger.EnhancedBreakpointManager :=
  DebugConsole.setVariableBreakpoint (DebugConsole.setVariableBreakpoint emptyManager "a") "b"

/-- An enabled watch breakpoint bound to the variable counter. -/
def counterWatch : TclDebugger.EnhancedBreakpoint :=
  { TclDebugger.mkEnhancedBreakpoint 0 "" "" with watchVariable := "counter" }

/-- Eleven pairwise-distinct update values. -/
def elevenValues : List String :=
  ["1", "2", "3", "4", "5", "6", "7", "8", "9", "10", "11"]

/- ===================== General helper lemmas ===================== -/

/-- Members of an insert-or-replace are the new pair or old members. -/
theorem mem_alInsert {κ β : Type} [DecidableEq κ] :
    ∀ (l : List (κ × β)) (k : κ) (v : β) (p : κ × β),
      p ∈ alInsert l k v → p = (k, v) ∨ p ∈ l
  | [], k, v, p, hp => by
      simp only [alInsert, List.mem_singleton] at hp
      left; exact hp
  | (a, b) :: tl, k, v, p, hp => by
      by_cases h : a = k
      · simp only [alInsert, if_pos h] at hp
        rcases List.mem_cons.mp hp with h1 | h1
        · left; exact h1
        · right; exact List.mem_cons_of_mem _ h1
      · simp only [alInsert, if_neg h] at hp
        rcases List.mem_cons.mp hp with h1 | h1
        · right; exact h1 ▸ List.mem_cons_self _ _
        · rcases mem_alInsert tl k v p h1 with h2 | h2
          · left; exact h2
          · right; exact List.mem_cons_of_mem _ h2

/-- Looking up the modified key returns the modified value. -/
theorem alLookup_alModify {κ β : Type} [DecidableEq κ] :
    ∀ (l : List (κ × β)) (k : κ) (f : β → β),
      alLookup (alModify l k f) k = (alLookup l k).map f
  | [], _, _ => rfl
  | (a, b) :: tl, k, f => by
      by_cases h : a = k
      · simp [alModify, alLookup, h]
      · simp [alModify, alLookup, h, alLookup_alModify tl k f]

/-- takeRight of a list at most n long is the whole list. -/
theorem takeRight_of_length_le {α : Type} {n : Nat} {l : List α} (h : l.length ≤ n) :
    takeRight n l = l := by
  unfold takeRight
  rw [Nat.sub_eq_zero_of_le h, List.drop_zero]

/-- Length of takeRight. -/
theorem takeRight_length {α : Type} (n : Nat) (l : List α) :
    (takeRight n l).length = l.length - (l.length - n) := by
  simp [takeRight]

/-- takeRight n ignores a new head when at least n elements follow it. -/
theorem takeRight_cons_of_le {α : Type} {n : Nat} (x : α) {l : List α} (h : n ≤ l.length) :
    takeRight n (x :: l) = takeRight n l := by
  unfold takeRight
  have h2 : (x :: l).length - n = (l.length - n) + 1 := by
    simp only [List.length_cons]; omega
  rw [h2, List.drop_succ_cons]

namespace TclDebugger

/-- analyzeTypeAndStructure does not change the stored value. -/
theorem analyze_value (r : EnhancedVariableInfo) :
    (analyzeTypeAndStructure r).value = r.value := by
  unfold analyzeTypeAndStructure; split_ifs <;> rfl

/-- analyzeTypeAndStructure does not change the history. -/
theorem analyze_valueHistory (r : EnhancedVariableInfo) :
    (analyzeTypeAndStructure r).valueHistory = r.valueHistory := by
  unfold analyzeTypeAndStructure; split_ifs <;> rfl

/-- analyzeTypeAndStructure does not change the access count. -/
theorem analyze_accessCount (r : EnhancedVariableInfo) :
    (analyzeTypeAndStructure r).accessCount = r.accessCount := by
  unfold analyzeTypeAndStructure; split_ifs <;> rfl

/-- When the isEmpty flag agrees with the value, the classifier stores exactly
the tag typeOf assigns to the value. -/
theorem analyze_type_eq {r : EnhancedVariableInfo} (h : r.isEmpty = decide (r.value = "")) :
    (analyzeTypeAndStructure r).type = typeOf r.value := by
  unfold analyzeTypeAndStructure typeOf
  rw [h]
  simp only [decide_eq_true_eq]
  split_ifs <;> rfl

/-- The constructor stores the given value unchanged. -/
theorem mk_value (n v s : String) : (mkEnhancedVariableInfo n v s).value = v := by
  unfold mkEnhancedVariableInfo; rw [analyze_value]

/-- A fresh record has empty history. -/
theorem mk_valueHistory (n v s : String) :
    (mkEnhancedVariableInfo n v s).valueHistory = [] := by
  unfold mkEnhancedVariableInfo; rw [analyze_valueHistory]

/-- A fresh record has accessCount 0 (the constructor initialises the counter
and never increments it). -/
theorem mk_accessCount (n v s : String) :
    (mkEnhancedVariableInfo n v s).accessCount = 0 := by
  unfold mkEnhancedVariableInfo; rw [analyze_accessCount]

/-- A fresh record carries the classifier's tag for its value. -/
theorem mk_type (n v s : String) : (mkEnhancedVariableInfo n v s).type = typeOf v := by
  unfold mkEnhancedVariableInfo
  exact analyze_type_eq rfl

/-- updateValue stores the new value. -/
theorem update_value (r : EnhancedVariableInfo) (v : String) (line : Int) :
    (updateValue r v line).value = v := by
  simp only [updateValue, analyze_value]

/-- updateValue increments accessCount by exactly one. -/
theorem update_accessCount (r : EnhancedVariableInfo) (v : String) (line : Int) :
    (updateValue r v line).accessCount = r.accessCount + 1 := by
  simp only [updateValue, analyze_accessCount]

/-- updateValue re-classifies: the stored tag is typeOf the new value. -/
theorem update_type (r : EnhancedVariableInfo) (v : String) (line : Int) :
    (updateValue r v line).type = typeOf v := by
  simp only [updateValue]
  exact analyze_type_eq rfl

/-- When history is already non-empty, every update pushes the old value. -/
theorem update_valueHistory_of_ne_nil {r : EnhancedVariableInfo}
    (hne : r.valueHistory ≠ []) (v : String) (line : Int) :
    (updateValue r v line).valueHistory = pushHistory r.valueHistory r.value := by
  have hemp : r.valueHistory.isEmpty = false := by
    cases h : r.valueHistory with
    | nil => exact absurd h hne
    | cons a l => rfl
  simp only [updateValue, analyze_valueHistory, hemp, Bool.not_false, Bool.true_or, if_true]

/-- With empty history, an update pushes exactly when the value changes. -/
theorem update_valueHistory_of_nil {r : EnhancedVariableInfo}
    (hnil : r.valueHistory = []) (v : String) (line : Int) :
    (updateValue r v line).valueHistory = if r.value = v then [] else [r.value] := by
  have hemp : r.valueHistory.isEmpty = true := by rw [hnil]; rfl
  simp only [updateValue, analyze_valueHistory, hemp, Bool.not_true, Bool.false_or]
  by_cases h : r.value = v
  · simp [h, hnil]
  · have : (r.value != v) = true := bne_iff_ne.mpr h
    simp [this, h, hnil, pushHistory]

end TclDebugger

/- ===================== Claim C6 ===================== -/

/-- Claim C6 counterexample: classifying the brace-wrapped numeric token
produces the String tag, not Integer, refuting the claim at the concrete
input it names. -/
theorem brace_wrapped_42_not_integer :
    (TclDebugger.mkEnhancedVariableInfo "x" "{42}" "global").type = "string"
    ∧ (TclDebugger.mkEnhancedVariableInfo "x" "{42}" "global").type ≠ "integer" := by
  decide

/-- Claim C6 (amended): a brace-wrapped single token never classifies as
Integer or Float; the numeric check runs on the raw literal (braces included),
which std::stod rejects, and brace stripping happens only inside the
list/dictionary helpers, which reject a single token, so the value classifies
as String even though its unwrapped content parses numerically. -/
theorem brace_wrapped_numeric_classifies_string (n s : String) :
    (TclDebugger.mkEnhancedVariableInfo n "{42}" s).type = "string"
    ∧ TclDebugger.isNumericValue "{42}" = false
    ∧ stodSucceeds "42" = true := by
  refine ⟨?_, by decide, by decide⟩
  rw [TclDebugger.mk_type]
  decide

/- ===================== Claim C9 ===================== -/

/-- Claim C9: the two classifier implementations are not extensionally equal;
on the brace-wrapped single non-numeric token the tcl_debugger.cpp classifier
answers String while the tcl_integrated_debugger.cpp classifier answers List. -/
theorem classifier_divergence :
    ∃ s : String,
      (TclDebugger.mkEnhancedVariableInfo "v" s "global").type
        ≠ (TclIntegrated.mkEnhancedVariableInfo "v" s "global").type :=
  ⟨"{abc}", by decide⟩

namespace TclDebugger

/- ===================== Claim C2 ===================== -/

/-- Claim C2 counterexample: with a breakpoint set at line 20, the line-hit
check (hasBreakpoint) returns true but is pure — after two checks the stored
hitCount is still 0, not 2 as claimed; no caller ever invokes hitBreakpoint. -/
theorem line_hit_check_does_not_count :
    hasBreakpoint lineTwentyManager 20 = true
    ∧ hasBreakpoint lineTwentyManager 20 = true
    ∧ (alLookup lineTwentyManager.breakpoints 20).map (fun b => b.hitCount) = some 0
    ∧ some (0 : Nat) ≠ some 2 := by
  decide

/-- Claim C2 (amended): for every line holding an enabled line breakpoint the
check returns true, but it leaves the breakpoint state untouched (hitCount
stays 0 after any number of checks); the hit count is incremented only by the
separate hitBreakpoint operation, which no caller invokes — two explicit
hitBreakpoint calls are what yield hitCount = 2. -/
theorem line_hit_check_and_hit_counting (m : EnhancedBreakpointManager)
    (line : Int) (bp : EnhancedBreakpoint)
    (hfind : alLookup m.breakpoints line = some bp) (hen : bp.enabled = true) :
    hasBreakpoint m line = true
    ∧ (alLookup (hitBreakpoint (hitBreakpoint m line) line).breakpoints line).map
        (fun b => b.hitCount) = some (bp.hitCount + 2) := by
  constructor
  · unfold hasBreakpoint
    rw [hfind]; exact hen
  · simp only [hitBreakpoint, alLookup_alModify, hfind, Option.map_some]
    simp

/-- Witness for the amended C2 theorem at the line-20 manager. -/
theorem line_hit_check_and_hit_counting_witness :
    alLookup lineTwentyManager.breakpoints 20 = some (mkEnhancedBreakpoint 20 "" "")
    ∧ (mkEnhancedBreakpoint 20 "" "").enabled = true
    ∧ (hasBreakpoint lineTwentyManager 20 = true
       ∧ (alLookup (hitBreakpoint (hitBreakpoint lineTwentyManager 20) 20).breakpoints 20).map
           (fun b => b.hitCount) = some ((mkEnhancedBreakpoint 20 "" "").hitCount + 2)) :=
  ⟨by decide, by decide,
    line_hit_check_and_hit_counting lineTwentyManager 20 (mkEnhancedBreakpoint 20 "" "")
      (by decide) (by decide)⟩

/- ===================== Claim C3 ===================== -/

/-- Claim C3 counterexample: after the console registers a watch on a and then
a watch on b, the registry holds exactly one breakpoint, watching b — the
second add replaced the first, refuting coexistence. -/
theorem second_watch_replaces_first :
    twoWatchManager.breakpoints.map (fun p => p.2.watchVariable) = ["b"]
    ∧ twoWatchManager.breakpoints.all (fun p => !(p.2.watchVariable == "a")) = true := by
  decide

/-- Claim C3 (amended): watch breakpoints are keyed by LINE, not by variable
name, and the console's breakvar command always uses line 0; hence adding a
watch on a and then a watch on b leaves a single registry entry at line 0
watching b. -/
theorem console_watches_keyed_at_line_zero (a b : String) :
    (DebugConsole.setVariableBreakpoint
        (DebugConsole.setVariableBreakpoint emptyManager a) b).breakpoints
      = [(0, { mkEnhancedBreakpoint 0 "" "" with
                 watchVariable := b, memoryCondition := "" })] := by
  simp [DebugConsole.setVariableBreakpoint, addVariableWatchBreakpoint, emptyManager, alInsert]

/- ===================== Claim C7 ===================== -/

/-- Claim C7 counterexample: immediately after a variable is first created by
set, its accessCount is 0, not 1 — the constructor initialises the counter to
zero and does not count creation as an access. -/
theorem creation_access_count_zero :
    (TclDebugger.getVariableInfo
        (TclDebugger.addVariable emptyTracker "x" "5" "global" 1).1 "x").map
      (fun r => r.accessCount) = some 0
    ∧ some (0 : Nat) ≠ some 1 := by
  decide

/-- Folding updates adds the number of updates to accessCount. -/
theorem foldl_update_accessCount (line : Int) :
    ∀ (us : List String) (r : EnhancedVariableInfo),
      (us.foldl (fun a v => updateValue a v line) r).accessCount
        = r.accessCount + us.length
  | [], r => by simp
  | u :: rest, r => by
      simp only [List.foldl_cons, foldl_update_accessCount line rest,
        update_accessCount, List.length_cons]
      omega

/-- Repeated global sets of one name keep a single global record, updated in
place by updateValue. -/
theorem foldl_addVariable_single (name : String) (line : Int) :
    ∀ (us : List String) (r : EnhancedVariableInfo),
      (us.foldl (fun t v => (addVariable t name v "global" line).1)
        { globalVariables := [(name, r)], scopeStack := [] })
      = { globalVariables := [(name, us.foldl (fun a v => updateValue a v line) r)],
          scopeStack := [] }
  | [], r => by simp
  | u :: rest, r => by
      have hstep : (addVariable { globalVariables := [(name, r)], scopeStack := [] }
            name u "global" line).1
          = { globalVariables := [(name, updateValue r u line)], scopeStack := [] } := by
        simp [addVariable, getVariableInfo, alLookup, alInsert]
      simp only [List.foldl_cons, hstep, foldl_addVariable_single name line rest]

/-- Claim C7 (amended): accessCount is incremented on updates only; creation
initialises it to 0, so after 1 + k set calls on the same global name it
equals k (one less than the total number of set calls). -/
theorem access_count_after_sets (name v0 : String) (line : Int) (us : List String) :
    (getVariableInfo
        (us.foldl (fun t v => (addVariable t name v "global" line).1)
          (addVariable emptyTracker name v0 "global" line).1)
        name).map (fun r => r.accessCount)
      = some us.length := by
  have hcreate : (addVariable emptyTracker name v0 "global" line).1
      = { globalVariables :=
            [(name, { mkEnhancedVariableInfo name v0 "global" with lastModifiedLine := line })],
          scopeStack := [] } := by
    simp [addVariable, getVariableInfo, emptyTracker, alLookup, alInsert]
  rw [hcreate, foldl_addVariable_single]
  have hac : ({ mkEnhancedVariableInfo name v0 "global" with
      lastModifiedLine := line } : EnhancedVariableInfo).accessCount = 0 := mk_accessCount name v0 "global"
  simp [getVariableInfo, alLookup, foldl_update_accessCount, hac, mk_accessCount]

/- ===================== Claim C1 ===================== -/

/-- Claim C1 counterexample: with global x = "g", a pushed scope, and a local
set x = "l", the lookup after popScope yields "l", not "g" — the local set
overwrote the global record. -/
theorem shadowing_lost_after_pop :
    (TclDebugger.getVariableInfo (TclDebugger.popScope shadowTracker) "x").map
      (fun r => r.value) = some "l"
    ∧ (some ("l" : String)) ≠ some "g" := by
  decide

/-- Claim C1 (amended): when a variable already exists globally, a set with
local scope inside a pushed frame updates the existing global record in place
— no shadowing local record is created (the pushed frame stays empty), so
get returns the new value both while the scope is pushed and after popScope. -/
theorem local_set_updates_global_in_place (x g l : String) (line1 line2 : Int) :
    ((getVariableInfo
        (addVariable (pushScope (addVariable emptyTracker x g "global" line1).1)
          x l "local" line2).1 x).map (fun r => r.value) = some l)
    ∧ ((getVariableInfo (popScope
        (addVariable (pushScope (addVariable emptyTracker x g "global" line1).1)
          x l "local" line2).1) x).map (fun r => r.value) = some l)
    ∧ ((addVariable (pushScope (addVariable emptyTracker x g "global" line1).1)
          x l "local" line2).1).scopeStack = [[]] := by
  have h1 : (addVariable emptyTracker x g "global" line1).1
      = { globalVariables :=
            [(x, { mkEnhancedVariableInfo x g "global" with lastModifiedLine := line1 })],
          scopeStack := [] } := by
    simp [addVariable, getVariableInfo, emptyTracker, alLookup, alInsert]
  have h3 : (addVariable (pushScope (addVariable emptyTracker x g "global" line1).1)
        x l "local" line2).1
      = { globalVariables :=
            [(x, updateValue { mkEnhancedVariableInfo x g "global" with
                  lastModifiedLine := line1 } l line2)],
          scopeStack := [[]] } := by
    rw [h1]
    simp [addVariable, getVariableInfo, pushScope, alLookup, alInsert]
  rw [h3]
  refine ⟨?_, ?_, rfl⟩
  · simp [getVariableInfo, alLookup, update_value]
  · simp [popScope, getVariableInfo, alLookup, update_value]

/- ===================== Claim C10 ===================== -/

/-- Claim C10: with an empty scope stack, a set with non-global scope for an
undefined name stores the new record nowhere — the tracker is unchanged and a
subsequent get returns absent — yet the change callback still receives exactly
one event with old value "" and the new value. -/
theorem empty_stack_local_create_dropped (t : MemoryAwareVariableTracker)
    (name v scope : String) (line : Int)
    (hstack : t.scopeStack = []) (hscope : scope ≠ "global")
    (habsent : getVariableInfo t name = none) :
    (addVariable t name v scope line).1 = t
    ∧ getVariableInfo (addVariable t name v scope line).1 name = none
    ∧ (addVariable t name v scope line).2
        = { name := name, oldValue := "", newValue := v } := by
  have h1 : addVariable t name v scope line
      = (t, { name := name, oldValue := "", newValue := v }) := by
    unfold addVariable
    rw [habsent]
    simp [hscope, hstack]
  refine ⟨by rw [h1], ?_, by rw [h1]⟩
  rw [h1]
  exact habsent

/-- Witness for the C10 theorem on the empty tracker. -/
theorem empty_stack_local_create_dropped_witness :
    emptyTracker.scopeStack = [] ∧ ("local" : String) ≠ "global"
    ∧ getVariableInfo emptyTracker "y" = none
    ∧ ((addVariable emptyTracker "y" "1" "local" 0).1 = emptyTracker
       ∧ getVariableInfo (addVariable emptyTracker "y" "1" "local" 0).1 "y" = none
       ∧ (addVariable emptyTracker "y" "1" "local" 0).2
           = { name := "y", oldValue := "", newValue := "1" }) :=
  ⟨rfl, by decide, rfl,
    empty_stack_local_create_dropped emptyTracker "y" "1" "local" 0 rfl (by decide) rfl⟩

end TclDebugger

namespace TclDebugger

/- ===================== Claim C4 ===================== -/

/-- Claim C4: with exactly one enabled watch breakpoint bound to counter,
evaluating a change event fires iff old differs from new under condition
"changed", and fires iff the new value is "100" (for every old value) under
condition "=100". -/
theorem watch_condition_semantics (l : Int) (bp : EnhancedBreakpoint)
    (hen : bp.enabled = true) (hvar : bp.watchVariable = "counter")
    (oldV newV : String) :
    ((checkVariableWatchBreakpoint
        { breakpoints := [(l, { bp with memoryCondition := "changed" })],
          watchedVariables := [] } "counter" oldV newV).2 = true ↔ oldV ≠ newV)
    ∧ ((checkVariableWatchBreakpoint
        { breakpoints := [(l, { bp with memoryCondition := "=100" })],
          watchedVariables := [] } "counter" oldV newV).2 = true ↔ newV = "100") := by
  have hne : (("changed" : String) != "") = true := by decide
  have hch : (("changed" : String) == "changed") = true := by decide
  have hceq : ("changed" : String).toList.contains '=' = false := by decide
  have hne2 : (("=100" : String) != "") = true := by decide
  have hch2 : (("=100" : String) == "changed") = false := by decide
  have hceq2 : ("=100" : String).toList.contains '=' = true := by decide
  have hexp : condExpected "=100" = "100" := by decide
  constructor
  · by_cases hc : oldV = newV
    · simp [checkVariableWatchBreakpoint, checkWatchLoop, hen, hvar, hne, hch, hceq, hc]
    · have hb : (oldV != newV) = true := bne_iff_ne.mpr hc
      simp [checkVariableWatchBreakpoint, checkWatchLoop, hen, hvar, hne, hch, hceq, hb, hc]
  · by_cases hc : newV = "100"
    · have hb : (newV == "100") = true := beq_iff_eq.mpr hc
      simp [checkVariableWatchBreakpoint, checkWatchLoop, hen, hvar, hne2, hch2, hceq2, hexp,
        hb, hc]
    · have hb : (newV == "100") = false := by
        rw [Bool.eq_false_iff]
        intro h; exact hc (beq_iff_eq.mp h)
      simp [checkVariableWatchBreakpoint, checkWatchLoop, hen, hvar, hne2, hch2, hceq2, hexp,
        hb, hc]

/-- Witness for the C4 theorem: the counter watch with old "1" and new "100". -/
theorem watch_condition_semantics_witness :
    counterWatch.enabled = true ∧ counterWatch.watchVariable = "counter"
    ∧ (((checkVariableWatchBreakpoint
          { breakpoints := [(0, { counterWatch with memoryCondition := "changed" })],
            watchedVariables := [] } "counter" "1" "100").2 = true ↔ ("1" : String) ≠ "100")
       ∧ ((checkVariableWatchBreakpoint
          { breakpoints := [(0, { counterWatch with memoryCondition := "=100" })],
            watchedVariables := [] } "counter" "1" "100").2 = true ↔ ("100" : String) = "100")) :=
  ⟨rfl, rfl, watch_condition_semantics 0 counterWatch rfl rfl "1" "100"⟩

end TclDebugger

namespace TclDebugger

/- ===================== Claim C5 ===================== -/

/-- A history push never produces the empty list. -/
theorem pushHistory_ne_nil (h : List String) (v : String) : pushHistory h v ≠ [] := by
  unfold pushHistory
  by_cases h10 : 10 < (h ++ [v]).length
  · rw [if_pos h10]
    intro habs
    have hlen := congrArg List.length habs
    rw [List.length_tail] at hlen
    simp only [List.length_append, List.length_cons, List.length_nil] at hlen h10
    omega
  · rw [if_neg h10]
    simp

/-- A history push starting at or below the bound stays at or below it. -/
theorem pushHistory_length_le {h : List String} (hle : h.length ≤ 10) (v : String) :
    (pushHistory h v).length ≤ 10 := by
  unfold pushHistory
  by_cases h10 : 10 < (h ++ [v]).length
  · rw [if_pos h10]; simp; omega
  · rw [if_neg h10]; simp at h10 ⊢; omega

/-- Pushing onto the 10-suffix of P yields the 10-suffix of P ++ [v]. -/
theorem pushHistory_takeRight (P : List String) (v : String) :
    pushHistory (takeRight 10 P) v = takeRight 10 (P ++ [v]) := by
  by_cases hP : P.length ≤ 10
  · rw [takeRight_of_length_le hP]
    unfold pushHistory
    by_cases h10 : 10 < (P ++ [v]).length
    · rw [if_pos h10]
      have hPlen : (P ++ [v]).length - 10 = 1 := by simp at h10 ⊢; omega
      unfold takeRight
      rw [hPlen, List.drop_one]
    · rw [if_neg h10]
      rw [takeRight_of_length_le (by simp at h10 ⊢; omega)]
  · have hd : (takeRight 10 P).length = 10 := by
      rw [takeRight_length]; omega
    obtain ⟨a, t, hat⟩ : ∃ a t, P.drop (P.length - 10) = a :: t := by
      cases hx : P.drop (P.length - 10) with
      | nil =>
        have := congrArg List.length hx
        simp at this
        omega
      | cons a t => exact ⟨a, t, rfl⟩
    unfold pushHistory takeRight
    rw [hat]
    have hlen : 10 < (a :: t ++ [v]).length := by
      have := congrArg List.length hat
      simp at this ⊢
      omega
    rw [if_pos hlen]
    have ht : t = P.drop (P.length - 10 + 1) := by
      have := congrArg List.tail hat
      rw [List.tail_drop] at this
      simpa using this.symm
    have harith : (P ++ [v]).length - 10 = P.length - 10 + 1 := by simp; omega
    rw [harith, List.drop_append_of_le_length (by omega)]
    simp [ht]

/-- Once the history is non-empty, folding further updates extends the pushed
prefix: the final history is the 10-suffix of the accumulated prior values. -/
theorem foldl_update_history (line : Int) :
    ∀ (us : List String) (r : EnhancedVariableInfo) (P : List String),
      r.valueHistory = takeRight 10 P → r.valueHistory ≠ [] →
      (us.foldl (fun a v => updateValue a v line) r).valueHistory
        = takeRight 10 (P ++ (r.value :: us).dropLast)
  | [], r, P, hh, hne => by simpa using hh
  | u :: rest, r, P, hh, hne => by
      have h1 : (updateValue r u line).valueHistory = pushHistory r.valueHistory r.value :=
        update_valueHistory_of_ne_nil hne u line
      have h2 : (updateValue r u line).valueHistory = takeRight 10 (P ++ [r.value]) := by
        rw [h1, hh]
        exact pushHistory_takeRight P r.value
      have hne2 : (updateValue r u line).valueHistory ≠ [] := by
        rw [h1]; exact pushHistory_ne_nil _ _
      have hv : (updateValue r u line).value = u := update_value r u line
      have ih := foldl_update_history line rest (updateValue r u line) (P ++ [r.value]) h2 hne2
      rw [List.foldl_cons, ih, hv]
      have hdl : (r.value :: u :: rest).dropLast = r.value :: (u :: rest).dropLast := by
        simp [List.dropLast]
      rw [hdl, List.append_assoc]
      rfl

/-- Claim C5: for a variable created with v0 and then updated 11 or more times
with pairwise-distinct values, the final history has length exactly 10 and is
the 10 most recent prior values in most-recent-last order (FIFO eviction of
the oldest). -/
theorem history_bound (name v0 scope : String) (line : Int) (us : List String)
    (hlen : 11 ≤ us.length) (hnodup : us.Nodup) :
    ((us.foldl (fun r v => updateValue r v line)
        (mkEnhancedVariableInfo name v0 scope)).valueHistory
      = takeRight 10 ((v0 :: us).dropLast))
    ∧ (us.foldl (fun r v => updateValue r v line)
        (mkEnhancedVariableInfo name v0 scope)).valueHistory.length = 10 := by
  have hmain : (us.foldl (fun r v => updateValue r v line)
      (mkEnhancedVariableInfo name v0 scope)).valueHistory
      = takeRight 10 ((v0 :: us).dropLast) := by
    cases us with
    | nil => simp at hlen
    | cons u1 rest =>
      have h0hist : (mkEnhancedVariableInfo name v0 scope).valueHistory = [] :=
        mk_valueHistory name v0 scope
      have h0val : (mkEnhancedVariableInfo name v0 scope).value = v0 := mk_value name v0 scope
      have h1hist : (updateValue (mkEnhancedVariableInfo name v0 scope) u1 line).valueHistory
          = if v0 = u1 then [] else [v0] := by
        rw [update_valueHistory_of_nil h0hist u1 line, h0val]
      have h1val : (updateValue (mkEnhancedVariableInfo name v0 scope) u1 line).value = u1 :=
        update_value _ u1 line
      rw [List.foldl_cons]
      by_cases hv : v0 = u1
      · have h1nil : (updateValue (mkEnhancedVariableInfo name v0 scope) u1 line).valueHistory
            = [] := by rw [h1hist, if_pos hv]
        cases rest with
        | nil => simp at hlen
        | cons u2 rest2 =>
          have hne12 : u1 ≠ u2 := by
            rcases List.nodup_cons.mp hnodup with ⟨hnotmem, _⟩
            intro he
            exact hnotmem (he ▸ List.mem_cons_self _ _)
          have h2hist : (updateValue (updateValue (mkEnhancedVariableInfo name v0 scope) u1 line)
              u2 line).valueHistory = [u1] := by
            rw [update_valueHistory_of_nil h1nil u2 line, h1val, if_neg hne12]
          have h2val : (updateValue (updateValue (mkEnhancedVariableInfo name v0 scope) u1 line)
              u2 line).value = u2 := update_value _ u2 line
          rw [List.foldl_cons]
          have hfold := foldl_update_history line rest2
            (updateValue (updateValue (mkEnhancedVariableInfo name v0 scope) u1 line) u2 line)
            [u1]
            (by rw [h2hist, takeRight_of_length_le (by simp)])
            (by rw [h2hist]; simp)
          rw [hfold, h2val]
          have hd2 : (u1 :: (u2 :: rest2).dropLast) = (u1 :: u2 :: rest2).dropLast := by
            simp [List.dropLast]
          have hstep1 : ([u1] ++ (u2 :: rest2).dropLast) = (u1 :: u2 :: rest2).dropLast := by
            rw [← hd2]; rfl
          rw [hstep1]
          have hd3 : (v0 :: u1 :: u2 :: rest2).dropLast = v0 :: (u1 :: u2 :: rest2).dropLast := by
            simp [List.dropLast]
          rw [hd3, takeRight_cons_of_le]
          rw [List.length_dropLast]
          simp at hlen ⊢
          omega
      · have h1one : (updateValue (mkEnhancedVariableInfo name v0 scope) u1 line).valueHistory
            = [v0] := by rw [h1hist, if_neg hv]
        have hfold := foldl_update_history line rest
          (updateValue (mkEnhancedVariableInfo name v0 scope) u1 line) [v0]
          (by rw [h1one, takeRight_of_length_le (by simp)])
          (by rw [h1one]; simp)
        rw [hfold, h1val]
        have hd1 : (v0 :: u1 :: rest).dropLast = v0 :: (u1 :: rest).dropLast := by
          simp [List.dropLast]
        rw [hd1]
        rfl
  refine ⟨hmain, ?_⟩
  rw [hmain, takeRight_length]
  simp at hlen ⊢
  omega

/-- Witness for the C5 theorem: eleven distinct updates after creation. -/
theorem history_bound_witness :
    11 ≤ elevenValues.length ∧ elevenValues.Nodup
    ∧ ((elevenValues.foldl (fun r v => updateValue r v 3)
          (mkEnhancedVariableInfo "x" "v0" "global")).valueHistory
        = takeRight 10 (("v0" :: elevenValues).dropLast)) :=
  ⟨by decide, by decide,
    (history_bound "x" "v0" "global" 3 elevenValues (by decide) (by decide)).1⟩

end TclDebugger

namespace TclDebugger

/- ===================== Claim C8 ===================== -/

/-- A fresh record is well typed: its tag is the classifier's tag for its value. -/
theorem mk_wellTyped (n v s : String) :
    (mkEnhancedVariableInfo n v s).type = typeOf (mkEnhancedVariableInfo n v s).value := by
  rw [mk_type, mk_value]

/-- An updated record is well typed. -/
theorem update_wellTyped (r : EnhancedVariableInfo) (v : String) (line : Int) :
    (updateValue r v line).type = typeOf (updateValue r v line).value := by
  rw [update_type, update_value]

/-- A record drawn from an insert-or-replace image is the inserted record or
one of the old records. -/
theorem mem_map_snd_alInsert {β : Type} (g : List (String × β)) (k : String) (x r : β)
    (hr : r ∈ (alInsert g k x).map Prod.snd) : r = x ∨ r ∈ g.map Prod.snd := by
  rcases List.mem_map.mp hr with ⟨p, hp, hps⟩
  rcases mem_alInsert g k x p hp with h | h
  · left; rw [← hps, h]
  · right; exact hps ▸ List.mem_map_of_mem Prod.snd h

/-- Replacing a global entry: any stored record is the new one or was already
stored. -/
theorem mem_allRecords_global_insert (t : MemoryAwareVariableTracker) (n : String)
    (x r : EnhancedVariableInfo)
    (hr : r ∈ allRecords { t with globalVariables := alInsert t.globalVariables n x }) :
    r = x ∨ r ∈ allRecords t := by
  simp only [allRecords] at hr ⊢
  rcases List.mem_append.mp hr with h | h
  · rcases mem_map_snd_alInsert t.globalVariables n x r h with h2 | h2
    · exact Or.inl h2
    · exact Or.inr (List.mem_append.mpr (Or.inl h2))
  · exact Or.inr (List.mem_append.mpr (Or.inr h))

/-- Replacing an entry of the innermost frame: any stored record is the new
one or was already stored. -/
theorem mem_allRecords_top_insert (t : MemoryAwareVariableTracker)
    (top : List (String × EnhancedVariableInfo))
    (rest : List (List (String × EnhancedVariableInfo)))
    (hst : t.scopeStack = top :: rest) (n : String) (x r : EnhancedVariableInfo)
    (hr : r ∈ allRecords { t with scopeStack := alInsert top n x :: rest }) :
    r = x ∨ r ∈ allRecords t := by
  simp only [allRecords, List.map_cons, List.flatten_cons] at hr
  rcases List.mem_append.mp hr with h | h
  · refine Or.inr ?_
    simp only [allRecords]
    exact List.mem_append.mpr (Or.inl h)
  · rcases List.mem_append.mp h with h2 | h2
    · rcases mem_map_snd_alInsert top n x r h2 with h3 | h3
      · exact Or.inl h3
      · refine Or.inr ?_
        simp only [allRecords, hst, List.map_cons, List.flatten_cons]
        exact List.mem_append.mpr (Or.inr (List.mem_append.mpr (Or.inl h3)))
    · refine Or.inr ?_
      simp only [allRecords, hst, List.map_cons, List.flatten_cons]
      exact List.mem_append.mpr (Or.inr (List.mem_append.mpr (Or.inr h2)))

/-- Any record stored after a set was already stored or is freshly classified. -/
theorem mem_allRecords_addVariable (t : MemoryAwareVariableTracker)
    (n v s : String) (l : Int) (r : EnhancedVariableInfo)
    (hr : r ∈ allRecords (addVariable t n v s l).1) :
    r ∈ allRecords t ∨ r.type = typeOf r.value := by
  cases hget : getVariableInfo t n with
  | some ex =>
    cases hst : t.scopeStack with
    | nil =>
      have heq : (addVariable t n v s l).1
          = { t with globalVariables := alInsert t.globalVariables n (updateValue ex v l) } := by
        simp [addVariable, hget, hst]
      rw [heq] at hr
      rcases mem_allRecords_global_insert t n _ r hr with h | h
      · right; rw [h]; exact update_wellTyped ex v l
      · left; exact h
    | cons top rest =>
      by_cases htop : (alLookup top n).isSome = true
      · have heq : (addVariable t n v s l).1
            = { t with scopeStack := alInsert top n (updateValue ex v l) :: rest } := by
          simp [addVariable, hget, hst, htop]
        rw [heq] at hr
        rcases mem_allRecords_top_insert t top rest hst n _ r hr with h | h
        · right; rw [h]; exact update_wellTyped ex v l
        · left; exact h
      · have heq : (addVariable t n v s l).1
            = { t with globalVariables := alInsert t.globalVariables n (updateValue ex v l) } := by
          simp [addVariable, hget, hst, htop]
        rw [heq] at hr
        rcases mem_allRecords_global_insert t n _ r hr with h | h
        · right; rw [h]; exact update_wellTyped ex v l
        · left; exact h
  | none =>
    by_cases hsc : s = "global"
    · have heq : (addVariable t n v s l).1
          = { t with globalVariables := alInsert t.globalVariables n ({ mkEnhancedVariableInfo n v s with lastModifiedLine := l }) } := by
        simp [addVariable, hget, hsc]
      rw [heq] at hr
      rcases mem_allRecords_global_insert t n _ r hr with h | h
      · right; rw [h]; exact mk_wellTyped n v s
      · left; exact h
    · cases hst : t.scopeStack with
      | nil =>
        have heq : (addVariable t n v s l).1 = t := by
          simp [addVariable, hget, hsc, hst]
        rw [heq] at hr
        left; exact hr
      | cons top rest =>
        have heq : (addVariable t n v s l).1
            = { t with scopeStack := alInsert top n ({ mkEnhancedVariableInfo n v s with lastModifiedLine := l }) :: rest } := by
          simp [addVariable, hget, hsc, hst]
        rw [heq] at hr
        rcases mem_allRecords_top_insert t top rest hst n _ r hr with h | h
        · right; rw [h]; exact mk_wellTyped n v s
        · left; exact h

/-- Records stored after a pop were already stored before it. -/
theorem mem_allRecords_popScope (t : MemoryAwareVariableTracker) (r : EnhancedVariableInfo)
    (hr : r ∈ allRecords (popScope t)) : r ∈ allRecords t := by
  cases hst : t.scopeStack with
  | nil =>
    have heq : popScope t = t := by simp [popScope, hst]
    rw [heq] at hr
    exact hr
  | cons top rest =>
    have heq : popScope t = { t with scopeStack := rest } := by simp [popScope, hst]
    rw [heq] at hr
    simp only [allRecords] at hr ⊢
    rcases List.mem_append.mp hr with h | h
    · exact List.mem_append.mpr (Or.inl h)
    · refine List.mem_append.mpr (Or.inr ?_)
      rw [hst]
      simp only [List.map_cons, List.flatten_cons]
      exact List.mem_append.mpr (Or.inr h)

/-- Pointwise reading of the typeFresh check. -/
theorem typeFresh_iff (t : MemoryAwareVariableTracker) :
    typeFresh t = true ↔ ∀ r ∈ allRecords t, r.type = typeOf r.value := by
  simp [typeFresh, List.all_eq_true]

/-- Claim C8: in every reachable tracker state, every stored record's type tag
equals the classifier's tag for its current value — classification runs
synchronously inside every set, so the tag is never stale. -/
theorem type_freshness_invariant {t : MemoryAwareVariableTracker} (h : Reachable t) :
    typeFresh t = true := by
  induction h with
  | init => rfl
  | add n v s l hre ih =>
    rw [typeFresh_iff] at ih ⊢
    intro r hr
    rcases mem_allRecords_addVariable _ n v s l r hr with h1 | h1
    · exact ih r h1
    · exact h1
  | push hre ih =>
    exact ih
  | pop hre ih =>
    rw [typeFresh_iff] at ih ⊢
    intro r hr
    exact ih r (mem_allRecords_popScope _ r hr)

/-- Witness for the C8 theorem: a tracker reached by one global set. -/
theorem type_freshness_invariant_witness :
    typeFresh (addVariable emptyTracker "x" "42" "global" 1).1 = true :=
  type_freshness_invariant (Reachable.add "x" "42" "global" 1 Reachable.init)

end TclDebugger
